import Mathlib

/-!
# tuna: node-quality store, UDP connection id, payment meter, stream opening

A shallow embedding of `storage/measure.go` and `entry/entry.go`.

Conventions of the embedding

* A Go `map[string]V` is a `GoMap V`: a list of key/value pairs with pairwise
  distinct keys.  The position of a pair in the list carries no meaning; a
  `for k, v := range m` loop visits the pairs in the order chosen by a
  `RangeOrder`, which may be any rearrangement of the pairs.
* Map values that are pointers in Go (`*FavoriteNode`, `*AvoidNode`) are
  embedded as the records they point to.
* `time.Now().Unix()` is an explicit argument `now` (seconds).
* A `float32` is only ever compared in the embedded code; see `F32`.
* Writing the JSON documents (`SaveFavoriteNodes`, `SaveAvoidNodes`) does not
  change the in-memory maps and is left out.
-/

namespace Tuna

/-! ## Go maps -/

/-- Keys of an association list. -/
def keysOf {V : Type} (l : List (String × V)) : List String := l.map Prod.fst

/-- Lookup of a key in an association list: the first pair with that key. -/
def getRaw {V : Type} : List (String × V) → String → Option V
  | [], _ => none
  | (k', v') :: t, k => if k' = k then some v' else getRaw t k

/-- Assignment `m[k] = v` on an association list: the pair with key `k` is
replaced where it stands, or the new pair is added when the key is absent. -/
def setRaw {V : Type} : List (String × V) → String → V → List (String × V)
  | [], k, v => [(k, v)]
  | (k', v') :: t, k, v => if k' = k then (k, v) :: t else (k', v') :: setRaw t k v

/-- Removal `delete(m, k)` on an association list. -/
def deleteRaw {V : Type} : List (String × V) → String → List (String × V)
  | [], _ => []
  | (k', v') :: t, k => if k' = k then deleteRaw t k else (k', v') :: deleteRaw t k

theorem keysOf_setRaw_of_mem {V : Type} (l : List (String × V)) (k : String) (v : V)
    (h : k ∈ keysOf l) : keysOf (setRaw l k v) = keysOf l := by
  induction l with
  | nil => simp [keysOf] at h
  | cons a t ih =>
    obtain ⟨k', v'⟩ := a
    by_cases hk : k' = k
    · simp [setRaw, hk, keysOf]
    · have ht : k ∈ keysOf t := by
        simp only [keysOf, List.map_cons, List.mem_cons] at h
        rcases h with h | h
        · exact absurd h.symm hk
        · exact h
      have := ih ht
      simp only [keysOf] at this
      simp [setRaw, hk, keysOf, this]

theorem keysOf_setRaw_of_not_mem {V : Type} (l : List (String × V)) (k : String) (v : V)
    (h : k ∉ keysOf l) : keysOf (setRaw l k v) = keysOf l ++ [k] := by
  induction l with
  | nil => simp [keysOf, setRaw]
  | cons a t ih =>
    obtain ⟨k', v'⟩ := a
    simp only [keysOf, List.map_cons, List.mem_cons, not_or] at h
    have hk : ¬ k' = k := fun e => h.1 e.symm
    have := ih h.2
    simp only [keysOf] at this
    simp [setRaw, hk, keysOf, this]

theorem nodup_keysOf_setRaw {V : Type} (l : List (String × V)) (k : String) (v : V)
    (h : (keysOf l).Nodup) : (keysOf (setRaw l k v)).Nodup := by
  by_cases hk : k ∈ keysOf l
  · rw [keysOf_setRaw_of_mem l k v hk]; exact h
  · rw [keysOf_setRaw_of_not_mem l k v hk]
    exact List.Nodup.append h (List.nodup_singleton k) (by
      intro a ha hb
      simp only [List.mem_singleton] at hb
      exact hk (hb ▸ ha))

theorem deleteRaw_sublist {V : Type} (l : List (String × V)) (k : String) :
    (deleteRaw l k).Sublist l := by
  induction l with
  | nil => simp [deleteRaw]
  | cons a t ih =>
    obtain ⟨k', v'⟩ := a
    by_cases hk : k' = k
    · simp only [deleteRaw, hk, if_true]
      exact List.Sublist.cons _ ih
    · simp only [deleteRaw, hk, if_false]
      exact List.Sublist.cons₂ _ ih

theorem nodup_keysOf_deleteRaw {V : Type} (l : List (String × V)) (k : String)
    (h : (keysOf l).Nodup) : (keysOf (deleteRaw l k)).Nodup :=
  List.Nodup.sublist (List.Sublist.map Prod.fst (deleteRaw_sublist l k)) h

/-- A Go `map[string]V`. -/
structure GoMap (V : Type) where
  data : List (String × V)
  nodup : (keysOf data).Nodup

theorem GoMap.ext_data {V : Type} {m1 m2 : GoMap V} (h : m1.data = m2.data) : m1 = m2 := by
  cases m1; cases m2; simp only [GoMap.mk.injEq]; exact h

instance {V : Type} [DecidableEq V] : DecidableEq (GoMap V) := fun a b =>
  decidable_of_iff (a.data = b.data) ⟨GoMap.ext_data, fun h => congrArg GoMap.data h⟩

namespace GoMap

/-- The empty map `map[string]V{}`. -/
def empty {V : Type} : GoMap V := ⟨[], List.nodup_nil⟩

/-- The map literal with one pair. -/
def single {V : Type} (k : String) (v : V) : GoMap V :=
  ⟨[(k, v)], List.nodup_singleton k⟩

/-- Indexing `m[k]` with its presence flag. -/
def get {V : Type} (m : GoMap V) (k : String) : Option V := getRaw m.data k

/-- Go `len(m)`. -/
def len {V : Type} (m : GoMap V) : Nat := m.data.length

/-- Go `m[k] = v`. -/
def set {V : Type} (m : GoMap V) (k : String) (v : V) : GoMap V :=
  ⟨setRaw m.data k v, nodup_keysOf_setRaw m.data k v m.nodup⟩

/-- Go `delete(m, k)`. -/
def delete {V : Type} (m : GoMap V) (k : String) : GoMap V :=
  ⟨deleteRaw m.data k, nodup_keysOf_deleteRaw m.data k m.nodup⟩

end GoMap

/-- The order in which a `range` loop visits the pairs of a map: Go leaves it
unspecified, so it is any rearrangement of the pairs. -/
structure RangeOrder where
  order : {α : Type} → List α → List α
  perm : ∀ {α : Type} (l : List α), (order l).Perm l

/-- Visit the pairs as they are listed. -/
def RangeOrder.listed : RangeOrder := ⟨fun l => l, fun l => List.Perm.refl l⟩

/-- Visit the pairs in the opposite order. -/
def RangeOrder.backwards : RangeOrder := ⟨fun l => l.reverse, fun l => List.reverse_perm l⟩

/-! ## `storage/measure.go` -/

/-- A Go `float32`, as far as comparisons see it.  `num v` is the number
`v * 2^(-149)` (every finite `float32` is such a multiple; both zeros are
`num 0`, and the infinities are `num (2^277)` and `num (-2^277)`), so the
order of the integers is the order of the floats; `nan` is a NaN. -/
inductive F32 where
  | nan : F32
  | num (v : Int) : F32
deriving DecidableEq, Repr

/-- Go `a < b` on `float32`: false as soon as one side is NaN. -/
def F32.lt : F32 → F32 → Bool
  | F32.num a, F32.num b => decide (a < b)
  | _, _ => false

/-- Go `a <= b` on `float32`. -/
def F32.le : F32 → F32 → Bool
  | F32.num a, F32.num b => decide (a ≤ b)
  | _, _ => false

/-- Go `a > b` on `float32`. -/
def F32.gt (a b : F32) : Bool := F32.lt b a

/-- Go `a == 0` on `float32`. -/
def F32.eqZero : F32 → Bool
  | F32.num 0 => true
  | _ => false

def maxFavoriteLength : Nat := 10
def maskSize : Int := 16
/-- The duration `14 * 24 * time.Hour`, in seconds. -/
def favoriteExpired : Int := 14 * 24 * 3600
/-- The duration `7 * 24 * time.Hour`, in seconds. -/
def avoidExpired : Int := 7 * 24 * 3600
def avoidCIDRMinIP : Nat := 3
/-- Go `math.MaxInt32`. -/
def MaxInt32 : Int := 2147483647

structure FavoriteNode where
  IP : String
  Address : String
  Metadata : String
  Delay : F32
  MinBandwidth : F32
  MaxBandwidth : F32
  ExpiresAt : Int
deriving DecidableEq, Repr

structure AvoidNode where
  IP : String
  MaskSize : Int
  Address : String
  ExpiresAt : Int
deriving DecidableEq, Repr

/-- Modelled from the spec: the type `Storage` of package `storage` (with
`NewStorage`, `Add`, `Delete`, `Len`, `GetData`) is not among the sources; the
favorite document is an "object mapping arbitrary key → FavoriteNode record",
so `Storage` is a map from keys to records. -/
abbrev Storage := GoMap FavoriteNode

/-- Modelled from the spec: `NewStorage` (not among the sources) gives the
store with no entry. -/
def NewStorage : Storage := GoMap.empty

/-- Modelled from the spec: `Storage.Add` (not among the sources) puts the
record under the key, replacing the record the key held. -/
def Storage.Add (s : Storage) (key : String) (val : FavoriteNode) : Storage := GoMap.set s key val

/-- Modelled from the spec: `Storage.Delete` (not among the sources) removes
the key and its record. -/
def Storage.Delete (s : Storage) (key : String) : Storage := GoMap.delete s key

/-- Modelled from the spec: `Storage.Len` (not among the sources) is the number
of entries. -/
def Storage.Len (s : Storage) : Nat := GoMap.len s

/-- Modelled from the spec: `Storage.GetData` (not among the sources) is the
map of the entries, for a `range` loop to visit. -/
def Storage.GetData (s : Storage) : List (String × FavoriteNode) := s.data

/-- The body of the first loop of `AddFavoriteNode` (lines 172-175): the new
value of `minBandwidth` after visiting one pair. -/
def minBandwidthStep (minBandwidth : F32) (kv : String × FavoriteNode) : F32 :=
  if kv.2.MinBandwidth.lt minBandwidth || minBandwidth.eqZero then kv.2.MinBandwidth
  else minBandwidth

/-- The first loop of `AddFavoriteNode` (lines 170-176), run over the pairs in
the order the `range` visits them, from `minBandwidth := float32(0)`. -/
def minBandwidthLoop (items : List (String × FavoriteNode)) : F32 :=
  items.foldl minBandwidthStep (F32.num 0)

/-- The body of the second loop of `AddFavoriteNode` (lines 182-186): the new
`(minExpire, deleteKey)` after visiting one pair. -/
def minExpireStep (acc : Int × String) (kv : String × FavoriteNode) : Int × String :=
  if kv.2.ExpiresAt < acc.1 then (kv.2.ExpiresAt, kv.1) else acc

/-- The second loop of `AddFavoriteNode` (lines 179-187): the pair
`(minExpire, deleteKey)` after the loop, from `("", int64(math.MaxInt32))`. -/
def minExpireLoop (items : List (String × FavoriteNode)) : Int × String :=
  items.foldl minExpireStep (MaxInt32, "")

/-- The defaulting of `val.ExpiresAt` at the head of `AddFavoriteNode`. -/
def favoriteDefaults (now : Int) (val : FavoriteNode) : FavoriteNode :=
  if val.ExpiresAt = 0 then { val with ExpiresAt := now + favoriteExpired } else val

/-- `MeasureStorage.AddFavoriteNode`: the returned flag and the store after the
call.  `r1` and `r2` are the orders of its two `range` loops. -/
def AddFavoriteNode (r1 r2 : RangeOrder) (now : Int) (key : String) (val : FavoriteNode)
    (s : Storage) : Bool × Storage :=
  let val := favoriteDefaults now val
  if s.Len ≥ maxFavoriteLength then
    let minBandwidth := minBandwidthLoop (r1.order s.GetData)
    if val.MinBandwidth.gt minBandwidth then
      let s1 := s.Add key val
      let deleteKey := (minExpireLoop (r2.order s1.GetData)).2
      (true, s1.Delete deleteKey)
    else (false, s)
  else (true, s.Add key val)

/-- One call of `AddFavoriteNode` as it is issued: the clock at the call, the
orders of its two loops, the key and the record. -/
structure FavoriteCall where
  r1 : RangeOrder
  r2 : RangeOrder
  now : Int
  key : String
  val : FavoriteNode

/-- The store after a sequence of `AddFavoriteNode` calls. -/
def addFavorites (calls : List FavoriteCall) (s : Storage) : Storage :=
  calls.foldl (fun st c => (AddFavoriteNode c.r1 c.r2 c.now c.key c.val st).2) s

/-! ### The avoid store -/

/-- Go `net.IPNet`: the bytes of the network address and of the mask. -/
structure IPNet where
  IP : List Nat
  Mask : List Nat
deriving DecidableEq, Repr

/-- The two functions of Go's standard package `net` that the avoid store
calls.  `ParseCIDR s` is the network returned by `net.ParseCIDR(s)`, `none`
when it returns an error; `String n` is `(*net.IPNet).String()`. -/
structure NetPkg where
  ParseCIDR : String → Option IPNet
  String : IPNet → String

/-- Go `fmt.Sprintf("%s/%d", key, maskSize)`. -/
def cidrString (key : String) (maskSize : Int) : String := key ++ "/" ++ toString maskSize

/-- The defaulting of `val.ExpiresAt` and `val.MaskSize` at the head of
`AddAvoidNode` (lines 202-208). -/
def avoidDefaults (now : Int) (val : AvoidNode) : AvoidNode :=
  let val := if val.ExpiresAt = 0 then { val with ExpiresAt := now + avoidExpired } else val
  if val.MaskSize = 0 then { val with MaskSize := maskSize } else val

/-- `MeasureStorage.AddAvoidNode`: the field `AvoidNodes` after the call.  The
inner map is a reference in Go and is updated in place; here the updated
group is stored back under its subnet key. -/
def AddAvoidNode (net : NetPkg) (now : Int) (key : String) (val : AvoidNode)
    (m : GoMap (GoMap AvoidNode)) : GoMap (GoMap AvoidNode) :=
  let val := avoidDefaults now val
  match net.ParseCIDR (cidrString key val.MaskSize) with
  | none => m
  | some subnet =>
    match m.get (net.String subnet) with
    | some group => m.set (net.String subnet) (group.set key val)
    | none => m.set (net.String subnet) (GoMap.single val.IP val)

/-- The body of the loop of `GetAvoidCIDR` (lines 230-237). -/
def avoidCIDRStep (net : NetPkg) (results : List IPNet) (kv : String × GoMap AvoidNode) :
    List IPNet :=
  if kv.2.len > avoidCIDRMinIP then
    match net.ParseCIDR kv.1 with
    | none => results
    | some subnet => results ++ [subnet]
  else results

/-- `MeasureStorage.GetAvoidCIDR`. -/
def GetAvoidCIDR (net : NetPkg) (r : RangeOrder) (m : GoMap (GoMap AvoidNode)) : List IPNet :=
  (r.order m.data).foldl (avoidCIDRStep net) []

/-- One call of `AddAvoidNode` as it is issued. -/
structure AvoidCall where
  now : Int
  key : String
  val : AvoidNode

/-- The avoid store after a sequence of `AddAvoidNode` calls. -/
def addAvoids (net : NetPkg) (calls : List AvoidCall) (m : GoMap (GoMap AvoidNode)) :
    GoMap (GoMap AvoidNode) :=
  calls.foldl (fun st c => AddAvoidNode net c.now c.key c.val st) m

/-! #### Dotted-decimal IPv4 networks

An executable rendering of what `net.ParseCIDR` and `(*net.IPNet).String` do
on dotted-decimal IPv4 input (an IPv6 address is answered with `none`).  It
serves to run the store on concrete addresses. -/

/-- Value of a decimal digit. -/
def digitVal (c : Char) : Option Nat :=
  if 48 ≤ c.toNat ∧ c.toNat ≤ 57 then some (c.toNat - 48) else none

/-- Value of a run of decimal digits. -/
def parseDigits : List Char → Nat → Option Nat
  | [], acc => some acc
  | c :: cs, acc =>
    match digitVal c with
    | none => none
    | some d => parseDigits cs (acc * 10 + d)

/-- One field of a dotted-decimal address: one to three digits, no leading
zero, at most 255. -/
def parseOctet (cs : List Char) : Option Nat :=
  if cs = [] ∨ cs.length > 3 ∨ (cs.length > 1 ∧ cs.head? = some '0') then none
  else (parseDigits cs 0).bind (fun n => if n ≤ 255 then some n else none)

/-- The fields between the separators. -/
def splitFields (sep : Char) : List Char → List (List Char)
  | [] => [[]]
  | c :: cs =>
    if c = sep then [] :: splitFields sep cs
    else
      match splitFields sep cs with
      | [] => [[c]]
      | h :: t => (c :: h) :: t

/-- The text before and after the first separator. -/
def splitFirst (sep : Char) : List Char → Option (List Char × List Char)
  | [] => none
  | c :: cs =>
    if c = sep then some ([], cs)
    else (splitFirst sep cs).map (fun p => (c :: p.1, p.2))

def parseIPv4 (cs : List Char) : Option (List Nat) :=
  match splitFields '.' cs with
  | [a, b, c, d] =>
    (parseOctet a).bind fun a => (parseOctet b).bind fun b =>
    (parseOctet c).bind fun c => (parseOctet d).bind fun d => some [a, b, c, d]
  | _ => none

/-- Go `net.CIDRMask(ones, 32)`. -/
def cidrMask (ones : Nat) : List Nat :=
  (List.range 4).map (fun i => 256 - 2 ^ (8 - min 8 (ones - 8 * i)))

def parseCIDRv4 (s : String) : Option IPNet :=
  (splitFirst '/' s.data).bind fun p =>
  (parseIPv4 p.1).bind fun ip =>
  (if p.2 = [] then none else parseDigits p.2 0).bind fun ones =>
  if ones ≤ 32 then some ⟨List.zipWith (fun a m => a &&& m) ip (cidrMask ones), cidrMask ones⟩
  else none

/-- Number of leading one bits of a mask. -/
def maskOnes (mask : List Nat) : Nat :=
  (mask.map (fun m =>
    match m with
    | 255 => 8 | 254 => 7 | 252 => 6 | 248 => 5 | 240 => 4 | 224 => 3 | 192 => 2 | 128 => 1
    | _ => 0)).sum

def ipNetString (n : IPNet) : String :=
  ".".intercalate (n.IP.map toString) ++ "/" ++ toString (maskOnes n.Mask)

/-- The package `net` on dotted-decimal IPv4 input. -/
def ipv4Net : NetPkg := ⟨parseCIDRv4, ipNetString⟩

/-! ### The expiry sweeps

`time.Now().Unix()` is read again at every visited pair; the sweeps are
embedded with the clock standing at `now` while a sweep runs. -/

/-- The Go loop `for k, v := range m { if now > v.ExpiresAt { delete(m, k) } }`
over the visited pairs (lines 117-121 and 130-134).  Only the pair being
visited is ever deleted, so the pairs still to come are visited all the same. -/
def deleteExpired {V : Type} (expiresAt : V → Int) (now : Int) (visited : List (String × V))
    (m : GoMap V) : GoMap V :=
  visited.foldl (fun st kv => if now > expiresAt kv.2 then st.delete kv.1 else st) m

/-- `MeasureStorage.ClearFavoriteExpired`: the favorite store after the sweep. -/
def ClearFavoriteExpired (r : RangeOrder) (now : Int) (s : Storage) : Storage :=
  deleteExpired FavoriteNode.ExpiresAt now (r.order s.GetData) s

/-- The inner loop of `ClearAvoidExpired` (lines 130-134) on one group. -/
def clearAvoidGroup (r : RangeOrder) (now : Int) (v1 : GoMap AvoidNode) : GoMap AvoidNode :=
  deleteExpired AvoidNode.ExpiresAt now (r.order v1.data) v1

/-- The body of the outer loop of `ClearAvoidExpired` (lines 130-137).  The
group `v1` is a reference in Go and shrinks in place; here the swept group is
stored back under its key unless it is deleted. -/
def clearAvoidStep (r : RangeOrder) (now : Int) (st : GoMap (GoMap AvoidNode))
    (kv : String × GoMap AvoidNode) : GoMap (GoMap AvoidNode) :=
  let v1 := clearAvoidGroup r now kv.2
  if v1.len = 0 then st.delete kv.1 else st.set kv.1 v1

/-- `MeasureStorage.ClearAvoidExpired`: the field `AvoidNodes` after the sweep. -/
def ClearAvoidExpired (r : RangeOrder) (now : Int) (m : GoMap (GoMap AvoidNode)) :
    GoMap (GoMap AvoidNode) :=
  (r.order m.data).foldl (clearAvoidStep r now) m

/-- What the sweep leaves of a record: nothing when it expired before `now`. -/
def keepUnexpired {V : Type} (expiresAt : V → Int) (now : Int) (v : V) : Option V :=
  if expiresAt v < now then none else some v

/-- What the outer loop of `ClearAvoidExpired` leaves of a group. -/
def sweptGroup (r : RangeOrder) (now : Int) (v : GoMap AvoidNode) : Option (GoMap AvoidNode) :=
  if (clearAvoidGroup r now v).len = 0 then none else some (clearAvoidGroup r now v)

/-! ## `entry/entry.go` -/

/-! ### The UDP connection id -/

/-- The bytes of a Go `int` (64 bits, two's complement) as they lie in memory
from the lowest address up, on a little-endian machine: byte `i` is digit `i`
of `port mod 2^64` in base 256. -/
def intMemory (port : Int) : List Nat :=
  (List.range 8).map (fun i => (((port % 2 ^ 64) / 256 ^ i) % 256).toNat)

/-- `GetConnIdData`: `*(*[2]byte)(unsafe.Pointer(&port))`, the two bytes at
the address of `port`. -/
def GetConnIdData (port : Int) : List Nat := (intMemory port).take 2

/-- Modelled from the spec: the decoder `tuna.GetConnIdString` is not among the
sources; the header's bytes 0-1 are read back as an unsigned 16-bit
little-endian value. -/
def decodeConnId (header : List Nat) : Nat := header.getD 0 0 + 256 * header.getD 1 0

/-! ### The payment meter -/

/-- Conversion of an integer to Go `int64`: reduction modulo `2^64` into
`[-2^63, 2^63)`. -/
def toInt64 (x : Int) : Int := (x + 2 ^ 63) % 2 ^ 64 - 2 ^ 63

/-- Line 124, `te.Price * common.Fixed64(bytesIn-te.bytesPaid) / 1048576`:
the subtraction is on `uint64`, the conversion to `Fixed64` (an `int64`)
keeps the bits, the product wraps, and `/` truncates toward zero. -/
def owedDelta (price : Int) (bytesIn bytesPaid : Nat) : Int :=
  Int.tdiv (toInt64 (price * toInt64 (((bytesIn : Int) - (bytesPaid : Int)) % 2 ^ 64))) 1048576

/-- The state the meter goroutine works on: the two counters of `TunaEntry`
and the receiver address of the payment channel `np` (`none` for `nil`). -/
structure Meter where
  bytesIn : Nat
  bytesPaid : Nat
  np : Option String
deriving DecidableEq, Repr

/-- How the fallible actions of one tick turn out, for those that are reached:
`NewNanoPay` succeeds, `IncrementAmount` succeeds, `getSession` succeeds,
`OpenStream` succeeds, and `stream.Write` returns `(writeN, err)` for a
transaction of `txLen` bytes. -/
structure TickOutcome where
  newNanoPay : Bool
  increment : Bool
  txLen : Nat
  session : Bool
  stream : Bool
  writeN : Nat
  writeErr : Bool
deriving DecidableEq, Repr

/-- One pass of the meter loop (lines 112-142) after the sleep: the state after
the pass and the amount handed to `IncrementAmount`, if that call is reached.
`receiver` is `te.PaymentReceiver` and `price` is `te.Price`. -/
def tick (receiver : String) (price : Int) (o : TickOutcome) (m : Meter) :
    Meter × Option Int :=
  let bytesIn := m.bytesIn
  if bytesIn = m.bytesPaid then (m, none)
  else
    let stale := m.np = none ∨ m.np ≠ some receiver
    if stale ∧ o.newNanoPay = false then ({ m with np := none }, none)
    else
      let m1 : Meter := if stale then { m with np := some receiver } else m
      let delta := owedDelta price bytesIn m.bytesPaid
      if o.increment = false then (m1, some delta)
      else if o.session = false then (m1, some delta)
      else if o.stream = false then (m1, some delta)
      else if o.writeN = o.txLen ∧ o.writeErr = false then
        ({ m1 with bytesPaid := bytesIn }, some delta)
      else (m1, some delta)

/-- What happens to the meter's state: forwarded traffic adds `d` bytes to the
`uint64` counter `bytesIn` (`tuna.Pipe`), or the meter loop makes one pass.
Traffic arriving while a pass runs comes after the read of `bytesIn` that
opens the pass, so it is an event after that pass. -/
inductive MeterEvent where
  | traffic (d : Nat) : MeterEvent
  | tick (receiver : String) (price : Int) (o : TickOutcome) : MeterEvent

def meterStep (m : Meter) : MeterEvent → Meter
  | MeterEvent.traffic d => { m with bytesIn := (m.bytesIn + d) % 2 ^ 64 }
  | MeterEvent.tick receiver price o => (tick receiver price o m).1

/-- The meter's state after a run of events from the start of `Start`. -/
def meterRun (events : List MeterEvent) : Meter :=
  events.foldl meterStep ⟨0, 0, none⟩

/-- All the bytes of traffic in a run of events. -/
def totalTraffic : List MeterEvent → Nat
  | [] => 0
  | MeterEvent.traffic d :: rest => d + totalTraffic rest
  | MeterEvent.tick _ _ _ :: rest => totalTraffic rest

/-- A pass settles: the counters differ, a payment channel is at hand, and
every action succeeds with a complete write. -/
def settles (receiver : String) (o : TickOutcome) (m : Meter) : Bool :=
  decide (m.bytesIn ≠ m.bytesPaid) &&
  (decide (m.np = some receiver) || o.newNanoPay) &&
  o.increment && o.session && o.stream && decide (o.writeN = o.txLen) && !o.writeErr

/-! ### Opening a stream -/

/-- What one pass through `openStream` meets: whether `te.session` is there
and open, whether `GetServerTCPConn` succeeds if it is called, whether
`session.OpenStream` succeeds if it is called, and whether the send on the
unbuffered `closeChan` that ends `te.close()` is received if `te.close()` is
called. -/
structure Attempt where
  sessionAlive : Bool
  connOk : Bool
  openOk : Bool
  closeTaken : Bool
deriving DecidableEq, Repr

/-- How a call of `getSession` ends: it returns a session, it returns an
error, or it never returns because `te.close()` waits for a receiver on
`closeChan`. -/
inductive SessionResult where
  | session : SessionResult
  | error : SessionResult
  | blocked : SessionResult
deriving DecidableEq, Repr

/-- `TunaEntry.getSession` (lines 170-184).  With `te.Reverse && force` it
calls `te.close()` before it returns its error, and `te.close()` ends with
`te.closeChan <- struct{}{}`, which returns only when the send is received. -/
def getSession (reverse force : Bool) (a : Attempt) : SessionResult :=
  if reverse && force then
    if a.closeTaken then SessionResult.error else SessionResult.blocked
  else if !a.sessionAlive || force then
    if a.connOk then SessionResult.session else SessionResult.error
  else SessionResult.session

/-- How a call of `openStream` ends, with the `force` flag of every pass that
reached `session.OpenStream`: it returns a stream, it returns the error of
`getSession`, it never returns because `getSession` is stuck in `te.close()`,
or it is still retrying when the listed outcomes are used up. -/
inductive OpenResult where
  | stream (opens : List Bool) : OpenResult
  | error (opens : List Bool) : OpenResult
  | blocked (opens : List Bool) : OpenResult
  | retrying (opens : List Bool) : OpenResult
deriving DecidableEq, Repr

def OpenResult.opens : OpenResult → List Bool
  | OpenResult.stream l => l
  | OpenResult.error l => l
  | OpenResult.blocked l => l
  | OpenResult.retrying l => l

/-- `TunaEntry.openStream` (lines 186-198), each pass meeting the next listed
outcome; `opens` collects the `force` flags of the passes that reached
`session.OpenStream`. -/
def openStreamFrom (reverse : Bool) : Bool → List Attempt → List Bool → OpenResult
  | _, [], opens => OpenResult.retrying opens
  | force, a :: rest, opens =>
    match getSession reverse force a with
    | SessionResult.error => OpenResult.error opens
    | SessionResult.blocked => OpenResult.blocked opens
    | SessionResult.session =>
      if a.openOk then OpenResult.stream (opens ++ [force])
      else openStreamFrom reverse true rest (opens ++ [force])

/-- The call `te.openStream(port, force)`. -/
def openStream (reverse force : Bool) (outcomes : List Attempt) : OpenResult :=
  openStreamFrom reverse force outcomes []

/-! ## Concrete inputs -/

/-- A favorite record with the given bandwidth and expiry, its other fields blank. -/
def sampleFavorite (minBandwidth expiresAt : Int) : FavoriteNode :=
  { IP := "", Address := "", Metadata := "", Delay := F32.num 0,
    MinBandwidth := F32.num minBandwidth, MaxBandwidth := F32.num minBandwidth,
    ExpiresAt := expiresAt }

/-- Ten keys. -/
def tenKeys : List String := ["n0", "n1", "n2", "n3", "n4", "n5", "n6", "n7", "n8", "n9"]

/-- Ten insertions under the ten keys, each record with bandwidth 1 and an
expiry after 2038-01-19 (`3000000000 > math.MaxInt32`). -/
def tenLateCalls (r1 r2 : RangeOrder) (now : Int) : List FavoriteCall :=
  tenKeys.map (fun k => ⟨r1, r2, now, k, sampleFavorite 1 3000000000⟩)

/-- The store those ten insertions build. -/
def tenLateStore : Storage :=
  tenKeys.foldl (fun st k => st.Add k (sampleFavorite 1 3000000000)) NewStorage

/-- A full store: nine records of bandwidth 5 after one of bandwidth 0, all
expiring at 1800000000. -/
def zeroFirstStore : Storage :=
  (["n1", "n2", "n3", "n4", "n5", "n6", "n7", "n8", "n9"].foldl
    (fun st k => st.Add k (sampleFavorite 5 1800000000))
    (NewStorage.Add "n0" (sampleFavorite 0 1800000000)))

/-- A full store: records of bandwidth 5 expiring at 1800000000, 1800000001, ... -/
def tenPlainStore : Storage :=
  [("n0", 1800000000), ("n1", 1800000001), ("n2", 1800000002), ("n3", 1800000003),
   ("n4", 1800000004), ("n5", 1800000005), ("n6", 1800000006), ("n7", 1800000007),
   ("n8", 1800000008), ("n9", 1800000009)].foldl
    (fun st (ke : String × Int) => st.Add ke.1 (sampleFavorite 5 ke.2)) NewStorage

/-- A call recording the address `ip` with every optional field unset. -/
def recordIP (ip : String) : AvoidCall := ⟨1700000000, ip, ⟨ip, 0, "", 0⟩⟩

/-- An avoid store with one group holding an expired and a live record and one
group holding an expired record only. -/
def sampleAvoidStore : GoMap (GoMap AvoidNode) :=
  ((GoMap.empty.set "10.1.0.0/16"
      ((GoMap.empty.set "10.1.0.1" ⟨"10.1.0.1", 16, "", 100⟩).set "10.1.0.2"
        ⟨"10.1.0.2", 16, "", 300⟩)).set "10.2.0.0/16"
      (GoMap.empty.set "10.2.0.1" ⟨"10.2.0.1", 16, "", 100⟩))

/-- A record for an address other than the key it is recorded under, every
optional field unset. -/
def strayRecord : AvoidNode := ⟨"10.1.7.7", 0, "", 0⟩

/-! # Theorems -/

/-! ## Facts about Go maps -/

theorem getRaw_setRaw {V : Type} (l : List (String × V)) (k : String) (v : V) (k' : String) :
    getRaw (setRaw l k v) k' = if k' = k then some v else getRaw l k' := by
  induction l with
  | nil =>
    by_cases h : k' = k
    · simp [setRaw, getRaw, h]
    · have h' : ¬ k = k' := fun e => h e.symm
      simp [setRaw, getRaw, h, h']
  | cons a t ih =>
    obtain ⟨ka, va⟩ := a
    by_cases hka : ka = k
    · subst hka
      by_cases h : k' = ka
      · simp [setRaw, getRaw, h]
      · have h' : ¬ ka = k' := fun e => h e.symm
        simp [setRaw, getRaw, h, h']
    · by_cases h : ka = k'
      · have h2 : ¬ k' = k := fun e => hka (h.trans e)
        simp [setRaw, getRaw, hka, h, h2]
      · simp [setRaw, getRaw, hka, h, ih]

theorem getRaw_deleteRaw {V : Type} (l : List (String × V)) (k k' : String) :
    getRaw (deleteRaw l k) k' = if k' = k then none else getRaw l k' := by
  induction l with
  | nil => simp [deleteRaw, getRaw]
  | cons a t ih =>
    obtain ⟨ka, va⟩ := a
    by_cases hka : ka = k
    · subst hka
      by_cases h : k' = ka
      · subst h
        simpa [deleteRaw] using ih
      · have h' : ¬ ka = k' := fun e => h e.symm
        simp [deleteRaw, getRaw, ih, h, h']
    · by_cases h : ka = k'
      · have h2 : ¬ k' = k := fun e => hka (h.trans e)
        simp [deleteRaw, getRaw, hka, h, h2]
      · simp [deleteRaw, getRaw, hka, h, ih]

theorem getRaw_eq_none_iff {V : Type} (l : List (String × V)) (k : String) :
    getRaw l k = none ↔ k ∉ keysOf l := by
  induction l with
  | nil => simp [getRaw, keysOf]
  | cons a t ih =>
    obtain ⟨ka, va⟩ := a
    by_cases h : ka = k
    · simp [getRaw, keysOf, h]
    · have h' : ¬ k = ka := fun e => h e.symm
      simp only [keysOf] at ih
      simp [getRaw, keysOf, h, h', ih]

theorem mem_of_getRaw {V : Type} (l : List (String × V)) (k : String) (v : V)
    (h : getRaw l k = some v) : (k, v) ∈ l := by
  induction l with
  | nil => simp [getRaw] at h
  | cons a t ih =>
    obtain ⟨ka, va⟩ := a
    by_cases hk : ka = k
    · simp [getRaw, hk] at h
      simp [hk, h]
    · simp [getRaw, hk] at h
      exact List.mem_cons_of_mem _ (ih h)

theorem getRaw_of_mem {V : Type} (l : List (String × V)) (k : String) (v : V)
    (hn : (keysOf l).Nodup) (h : (k, v) ∈ l) : getRaw l k = some v := by
  induction l with
  | nil => simp at h
  | cons a t ih =>
    obtain ⟨ka, va⟩ := a
    simp only [keysOf, List.map_cons, List.nodup_cons] at hn
    rcases List.mem_cons.mp h with h | h
    · have h1 : ka = k := (congrArg Prod.fst h).symm
      have h2 : va = v := (congrArg Prod.snd h).symm
      simp [getRaw, h1, h2]
    · have hk : ¬ ka = k := by
        intro e
        apply hn.1
        rw [e]
        exact List.mem_map.mpr ⟨(k, v), h, rfl⟩
      simp only [getRaw, hk, if_false]
      exact ih hn.2 h

theorem length_setRaw_of_not_mem {V : Type} (l : List (String × V)) (k : String) (v : V)
    (h : k ∉ keysOf l) : (setRaw l k v).length = l.length + 1 := by
  have := congrArg List.length (keysOf_setRaw_of_not_mem l k v h)
  simpa [keysOf] using this

theorem length_setRaw_of_mem {V : Type} (l : List (String × V)) (k : String) (v : V)
    (h : k ∈ keysOf l) : (setRaw l k v).length = l.length := by
  have := congrArg List.length (keysOf_setRaw_of_mem l k v h)
  simpa [keysOf] using this

theorem F32.lt_false_of_le {a b : F32} (h : F32.le a b = true) : F32.lt b a = false := by
  cases a with
  | nan => simp [F32.le] at h
  | num x =>
    cases b with
    | nan => simp [F32.le] at h
    | num y =>
      simp only [F32.le, decide_eq_true_eq] at h
      simp only [F32.lt, decide_eq_false_iff_not]
      omega

theorem minBandwidth_foldl_mem (items : List (String × FavoriteNode)) (acc : F32) :
    items.foldl minBandwidthStep acc = acc ∨
      ∃ kv ∈ items, items.foldl minBandwidthStep acc = kv.2.MinBandwidth := by
  induction items generalizing acc with
  | nil => exact Or.inl rfl
  | cons a t ih =>
    simp only [List.foldl_cons]
    rcases ih (minBandwidthStep acc a) with h | ⟨kv, hkv, h⟩
    · by_cases hc : (a.2.MinBandwidth.lt acc || acc.eqZero) = true
      · right
        refine ⟨a, List.mem_cons_self _ _, ?_⟩
        rw [h]
        simp [minBandwidthStep, hc]
      · left
        rw [h]
        simp [minBandwidthStep, hc]
    · exact Or.inr ⟨kv, List.mem_cons_of_mem _ hkv, h⟩

theorem minBandwidthLoop_mem (items : List (String × FavoriteNode)) (h : items ≠ []) :
    ∃ kv ∈ items, minBandwidthLoop items = kv.2.MinBandwidth := by
  cases items with
  | nil => exact absurd rfl h
  | cons a t =>
    have h0 : minBandwidthLoop (a :: t) = t.foldl minBandwidthStep a.2.MinBandwidth := by
      simp [minBandwidthLoop, minBandwidthStep, F32.eqZero]
    rcases minBandwidth_foldl_mem t a.2.MinBandwidth with h1 | ⟨kv, hkv, h1⟩
    · exact ⟨a, List.mem_cons_self _ _, h0.trans h1⟩
    · exact ⟨kv, List.mem_cons_of_mem _ hkv, h0.trans h1⟩

theorem minExpire_foldl_none (items : List (String × FavoriteNode)) (acc : Int × String)
    (h : ∀ e ∈ items, acc.1 ≤ e.2.ExpiresAt) : items.foldl minExpireStep acc = acc := by
  induction items with
  | nil => rfl
  | cons a t ih =>
    have ha : ¬ a.2.ExpiresAt < acc.1 := not_lt.mpr (h a (List.mem_cons_self _ _))
    simp only [List.foldl_cons, minExpireStep, ha, if_false]
    exact ih (fun e he => h e (List.mem_cons_of_mem _ he))

theorem minBandwidth_foldl_const (b : Int) (items : List (String × FavoriteNode))
    (h : ∀ e ∈ items, e.2.MinBandwidth = F32.num b) :
    items.foldl minBandwidthStep (F32.num b) = F32.num b := by
  induction items with
  | nil => rfl
  | cons a t ih =>
    have ha := h a (List.mem_cons_self _ _)
    have hstep : minBandwidthStep (F32.num b) a = F32.num b := by
      unfold minBandwidthStep
      split <;> simp [ha]
    simp only [List.foldl_cons, hstep]
    exact ih (fun e he => h e (List.mem_cons_of_mem _ he))

theorem minBandwidthLoop_const (b : Int) (items : List (String × FavoriteNode))
    (hne : items ≠ []) (h : ∀ e ∈ items, e.2.MinBandwidth = F32.num b) :
    minBandwidthLoop items = F32.num b := by
  cases items with
  | nil => exact absurd rfl hne
  | cons a t =>
    have ha := h a (List.mem_cons_self _ _)
    have h0 : minBandwidthStep (F32.num 0) a = F32.num b := by
      simp [minBandwidthStep, F32.eqZero, ha]
    simp only [minBandwidthLoop, List.foldl_cons, h0]
    exact minBandwidth_foldl_const b t (fun e he => h e (List.mem_cons_of_mem _ he))

theorem AddFavoriteNode_of_room (r1 r2 : RangeOrder) (now : Int) (key : String)
    (val : FavoriteNode) (s : Storage) (h : s.Len < maxFavoriteLength) :
    AddFavoriteNode r1 r2 now key val s = (true, s.Add key (favoriteDefaults now val)) := by
  have h' : ¬ s.Len ≥ maxFavoriteLength := not_le.mpr h
  simp only [AddFavoriteNode, h', if_false]

theorem Storage.Len_Add_le (s : Storage) (key : String) (val : FavoriteNode) :
    (s.Add key val).Len ≤ s.Len + 1 := by
  show (setRaw s.data key val).length ≤ s.data.length + 1
  by_cases h : key ∈ keysOf s.data
  · rw [length_setRaw_of_mem _ _ _ h]; omega
  · rw [length_setRaw_of_not_mem _ _ _ h]

theorem addFavorites_of_room (calls : List FavoriteCall) (s : Storage)
    (hex : ∀ c ∈ calls, c.val.ExpiresAt ≠ 0)
    (hlen : s.Len + calls.length ≤ maxFavoriteLength) :
    addFavorites calls s = calls.foldl (fun st c => st.Add c.key c.val) s := by
  induction calls generalizing s with
  | nil => rfl
  | cons c t ih =>
    simp only [List.length_cons] at hlen
    have hroom : s.Len < maxFavoriteLength := by omega
    have hc : favoriteDefaults c.now c.val = c.val := by
      simp [favoriteDefaults, hex c (List.mem_cons_self _ _)]
    simp only [addFavorites, List.foldl_cons, AddFavoriteNode_of_room _ _ _ _ _ _ hroom, hc]
    have := Storage.Len_Add_le s c.key c.val
    exact ih (s.Add c.key c.val) (fun c' hc' => hex c' (List.mem_cons_of_mem _ hc')) (by omega)

/-- C1 (the code breaks the bound): ten insertions fill the store; an eleventh
with a larger bandwidth is admitted, and since no record expires before
`math.MaxInt32` the eviction loop leaves `deleteKey` empty and nothing is
deleted: the store holds eleven entries, whatever the clock and whatever the
order of the `range` loops. -/
theorem favorite_store_exceeds_bound (r1 r2 : RangeOrder) (now : Int) :
    (addFavorites
      (tenLateCalls r1 r2 now ++ [⟨r1, r2, now, "n10", sampleFavorite 2 3000000000⟩])
      NewStorage).Len = 11 := by
  have h10 : addFavorites (tenLateCalls r1 r2 now) NewStorage = tenLateStore := by
    rw [addFavorites_of_room]
    · simp only [tenLateCalls, tenLateStore, List.foldl_map]
    · intro c hc
      simp only [tenLateCalls, List.mem_map] at hc
      obtain ⟨k, _, rfl⟩ := hc
      simp [sampleFavorite]
    · simp [tenLateCalls, tenKeys, NewStorage, Storage.Len, GoMap.len, GoMap.empty,
        maxFavoriteLength]
  have hfull : tenLateStore.Len ≥ maxFavoriteLength := by decide
  have hmin : minBandwidthLoop (r1.order tenLateStore.GetData) = F32.num 1 := by
    apply minBandwidthLoop_const
    · intro h
      have := (r1.perm tenLateStore.GetData).length_eq
      rw [h] at this
      exact absurd this (by decide)
    · intro e he
      have hall : ∀ x ∈ tenLateStore.GetData, x.2.MinBandwidth = F32.num 1 := by decide
      exact hall e ((r1.perm _).mem_iff.mp he)
  have hdef : favoriteDefaults now (sampleFavorite 2 3000000000) = sampleFavorite 2 3000000000 := by
    simp [favoriteDefaults, sampleFavorite]
  have hexp : minExpireLoop
      (r2.order (tenLateStore.Add "n10" (sampleFavorite 2 3000000000)).GetData) =
      (MaxInt32, "") := by
    apply minExpire_foldl_none
    intro e he
    have hall : ∀ x ∈ (tenLateStore.Add "n10" (sampleFavorite 2 3000000000)).GetData,
        MaxInt32 ≤ x.2.ExpiresAt := by decide
    exact hall e ((r2.perm _).mem_iff.mp he)
  have hcall : (AddFavoriteNode r1 r2 now "n10" (sampleFavorite 2 3000000000) tenLateStore).2 =
      (tenLateStore.Add "n10" (sampleFavorite 2 3000000000)).Delete "" := by
    simp only [AddFavoriteNode, hfull, if_true, hdef, hmin, hexp]
    rfl
  unfold addFavorites at h10 ⊢
  rw [List.foldl_append, h10]
  simp only [List.foldl_cons, List.foldl_nil, hcall]
  decide

theorem favoriteDefaults_MinBandwidth (now : Int) (val : FavoriteNode) :
    (favoriteDefaults now val).MinBandwidth = val.MinBandwidth := by
  unfold favoriteDefaults
  split <;> rfl

/-- C2: a candidate whose bandwidth is at most that of every one of the ten
stored records is rejected, and the store is left as it was. -/
theorem favorite_rejected (r1 r2 : RangeOrder) (now : Int) (key : String) (val : FavoriteNode)
    (s : Storage) (hlen : s.Len = 10)
    (hmin : ∀ e ∈ s.GetData, val.MinBandwidth.le e.2.MinBandwidth = true) :
    AddFavoriteNode r1 r2 now key val s = (false, s) := by
  have hfull : s.Len ≥ maxFavoriteLength := by rw [hlen]; decide
  have hne : r1.order s.GetData ≠ [] := by
    intro h
    have := (r1.perm s.GetData).length_eq
    rw [h] at this
    have h10 : s.GetData.length = 10 := hlen
    rw [h10] at this
    exact absurd this (by decide)
  obtain ⟨kv, hkv, hloop⟩ := minBandwidthLoop_mem _ hne
  have hle := hmin kv ((r1.perm _).mem_iff.mp hkv)
  have hgt : (favoriteDefaults now val).MinBandwidth.gt
      (minBandwidthLoop (r1.order s.GetData)) = false := by
    rw [favoriteDefaults_MinBandwidth, hloop]
    exact F32.lt_false_of_le hle
  simp [AddFavoriteNode, hfull, hgt]

/-- Witness of C2: a candidate of bandwidth 5 offered to ten records of
bandwidth 5. -/
theorem favorite_rejected_witness :
    AddFavoriteNode RangeOrder.listed RangeOrder.backwards 1700000000 "x"
      (sampleFavorite 5 0) tenPlainStore = (false, tenPlainStore) :=
  favorite_rejected RangeOrder.listed RangeOrder.backwards 1700000000 "x"
    (sampleFavorite 5 0) tenPlainStore (by decide) (by decide)

/-- C3 (the code misses the minimum): in a full store whose first visited
record has bandwidth 0 and whose other records have bandwidth 5, the smallest
bandwidth is 0, yet the loop ends with threshold 5 (a threshold equal to 0 is
taken for "not yet set" and overwritten), so a candidate of bandwidth 3 is
rejected; visiting the same records in the opposite order gives threshold 0
and admits it. -/
theorem favorite_threshold_not_minimum :
    zeroFirstStore.Len = 10 ∧
    zeroFirstStore.get "n0" = some (sampleFavorite 0 1800000000) ∧
    (∀ e ∈ zeroFirstStore.GetData, (F32.num 0).le e.2.MinBandwidth = true) ∧
    (sampleFavorite 3 0).MinBandwidth.gt (F32.num 0) = true ∧
    minBandwidthLoop (RangeOrder.listed.order zeroFirstStore.GetData) = F32.num 5 ∧
    AddFavoriteNode RangeOrder.listed RangeOrder.listed 1700000000 "x" (sampleFavorite 3 0)
      zeroFirstStore = (false, zeroFirstStore) ∧
    minBandwidthLoop (RangeOrder.backwards.order zeroFirstStore.GetData) = F32.num 0 ∧
    (AddFavoriteNode RangeOrder.backwards RangeOrder.listed 1700000000 "x" (sampleFavorite 3 0)
      zeroFirstStore).1 = true := by
  decide

theorem avoidDefaults_IP (now : Int) (val : AvoidNode) : (avoidDefaults now val).IP = val.IP := by
  simp only [avoidDefaults]
  split_ifs <;> rfl

theorem avoidDefaults_MaskSize (now : Int) (val : AvoidNode)
    (h : val.MaskSize = 0 ∨ val.MaskSize = 16) : (avoidDefaults now val).MaskSize = 16 := by
  simp only [avoidDefaults]
  split_ifs <;> simp_all [maskSize]

theorem AddAvoidNode_first (net : NetPkg) (now : Int) (key : String) (val : AvoidNode)
    (c : IPNet) (m : GoMap (GoMap AvoidNode)) (hm : m.data = [])
    (hmask : val.MaskSize = 0 ∨ val.MaskSize = 16)
    (hsub : net.ParseCIDR (cidrString key 16) = some c) :
    (AddAvoidNode net now key val m).data =
      [(net.String c, GoMap.single val.IP (avoidDefaults now val))] := by
  have hget : m.get (net.String c) = none := by simp [GoMap.get, hm, getRaw]
  simp only [AddAvoidNode, avoidDefaults_MaskSize now val hmask, hsub, hget, avoidDefaults_IP]
  simp [GoMap.set, hm, setRaw]

theorem AddAvoidNode_next (net : NetPkg) (now : Int) (key : String) (val : AvoidNode)
    (c : IPNet) (m : GoMap (GoMap AvoidNode)) (g : GoMap AvoidNode)
    (hm : m.data = [(net.String c, g)])
    (hmask : val.MaskSize = 0 ∨ val.MaskSize = 16)
    (hsub : net.ParseCIDR (cidrString key 16) = some c) :
    (AddAvoidNode net now key val m).data =
      [(net.String c, g.set key (avoidDefaults now val))] := by
  have hget : m.get (net.String c) = some g := by simp [GoMap.get, hm, getRaw]
  simp only [AddAvoidNode, avoidDefaults_MaskSize now val hmask, hsub, hget]
  simp [GoMap.set, hm, setRaw]

theorem addAvoids_group (net : NetPkg) (c : IPNet) (calls : List AvoidCall) :
    ∀ (m : GoMap (GoMap AvoidNode)) (g : GoMap AvoidNode),
      m.data = [(net.String c, g)] →
      (keysOf g.data ++ calls.map (fun a => a.key)).Nodup →
      (∀ a ∈ calls, a.val.MaskSize = 0 ∨ a.val.MaskSize = 16) →
      (∀ a ∈ calls, net.ParseCIDR (cidrString a.key 16) = some c) →
      ∃ g', (addAvoids net calls m).data = [(net.String c, g')] ∧
        keysOf g'.data = keysOf g.data ++ calls.map (fun a => a.key) := by
  induction calls with
  | nil =>
    intro m g hm _ _ _
    exact ⟨g, hm, by simp⟩
  | cons a t ih =>
    intro m g hm hnd hmask hsub
    have hstep := AddAvoidNode_next net a.now a.key a.val c m g hm
      (hmask a (List.mem_cons_self _ _)) (hsub a (List.mem_cons_self _ _))
    have hnew : a.key ∉ keysOf g.data := by
      intro hmem
      have := List.disjoint_of_nodup_append hnd hmem
      exact this (by simp)
    have hkeys : keysOf (g.set a.key (avoidDefaults a.now a.val)).data =
        keysOf g.data ++ [a.key] := keysOf_setRaw_of_not_mem _ _ _ hnew
    have hnd' : (keysOf (g.set a.key (avoidDefaults a.now a.val)).data ++
        t.map (fun a => a.key)).Nodup := by
      rw [hkeys]
      simpa using hnd
    obtain ⟨g', h1, h2⟩ := ih (AddAvoidNode net a.now a.key a.val m) _ hstep hnd'
      (fun x hx => hmask x (List.mem_cons_of_mem _ hx))
      (fun x hx => hsub x (List.mem_cons_of_mem _ hx))
    refine ⟨g', ?_, ?_⟩
    · simpa [addAvoids] using h1
    · rw [h2, hkeys]
      simp

theorem avoidCIDR_foldl_mem (net : NetPkg) (n : IPNet) (l : List (String × GoMap AvoidNode)) :
    ∀ acc : List IPNet, n ∈ l.foldl (avoidCIDRStep net) acc →
      n ∈ acc ∨ ∃ kv ∈ l, kv.2.len > avoidCIDRMinIP ∧ net.ParseCIDR kv.1 = some n := by
  induction l with
  | nil => intro acc h; exact Or.inl h
  | cons a t ih =>
    intro acc h
    simp only [List.foldl_cons] at h
    rcases ih _ h with h1 | ⟨kv, hkv, h2⟩
    · unfold avoidCIDRStep at h1
      split at h1
      · rename_i hlen
        split at h1
        · exact Or.inl h1
        · rename_i subnet hp
          rcases List.mem_append.mp h1 with h3 | h3
          · exact Or.inl h3
          · right
            simp only [List.mem_singleton] at h3
            exact ⟨a, List.mem_cons_self _ _, hlen, by rw [hp, h3]⟩
      · exact Or.inl h1
    · exact Or.inr ⟨kv, List.mem_cons_of_mem _ hkv, h2⟩

/-- C5: after recording `n` distinct addresses that all parse, with mask 16,
to the same subnet (each record carrying its key as `IP` and the default
mask), `GetAvoidCIDR` contains that subnet exactly when `n > 3`; and on any
store, every subnet it returns is the key of a group of more than 3 records. -/
theorem avoid_threshold (net : NetPkg) (r : RangeOrder) (calls : List AvoidCall) (c : IPNet)
    (hdistinct : (calls.map (fun a => a.key)).Nodup)
    (hip : ∀ a ∈ calls, a.val.IP = a.key)
    (hmask : ∀ a ∈ calls, a.val.MaskSize = 0 ∨ a.val.MaskSize = 16)
    (hsub : ∀ a ∈ calls, net.ParseCIDR (cidrString a.key 16) = some c)
    (hback : net.ParseCIDR (net.String c) = some c) :
    (c ∈ GetAvoidCIDR net r (addAvoids net calls GoMap.empty) ↔ calls.length > 3) ∧
    (∀ (m : GoMap (GoMap AvoidNode)) (n : IPNet), n ∈ GetAvoidCIDR net r m →
      ∃ k g, m.get k = some g ∧ g.len > 3 ∧ net.ParseCIDR k = some n) := by
  constructor
  · cases calls with
    | nil =>
      have h0 : r.order (GoMap.empty : GoMap (GoMap AvoidNode)).data = [] :=
        List.perm_nil.mp (r.perm _)
      simp [addAvoids, GetAvoidCIDR, h0]
    | cons a t =>
      have hfirst := AddAvoidNode_first net a.now a.key a.val c GoMap.empty rfl
        (hmask a (List.mem_cons_self _ _)) (hsub a (List.mem_cons_self _ _))
      rw [hip a (List.mem_cons_self _ _)] at hfirst
      obtain ⟨g', h1, h2⟩ := addAvoids_group net c t
        (AddAvoidNode net a.now a.key a.val GoMap.empty) _ hfirst
        (by simpa [GoMap.single, keysOf] using hdistinct)
        (fun x hx => hmask x (List.mem_cons_of_mem _ hx))
        (fun x hx => hsub x (List.mem_cons_of_mem _ hx))
      have hdata : (addAvoids net (a :: t) GoMap.empty).data = [(net.String c, g')] := by
        simpa [addAvoids] using h1
      have hlen : g'.len = (a :: t).length := by
        have := congrArg List.length h2
        simpa [GoMap.len, GoMap.single, keysOf, Nat.add_comm] using this
      have hord : r.order (addAvoids net (a :: t) GoMap.empty).data = [(net.String c, g')] := by
        have := r.perm (addAvoids net (a :: t) GoMap.empty).data
        rw [hdata] at this
        rw [hdata]
        exact List.perm_singleton.mp this
      unfold GetAvoidCIDR
      rw [hord]
      simp only [List.foldl_cons, List.foldl_nil, avoidCIDRStep, hback, hlen, avoidCIDRMinIP]
      by_cases h3 : (a :: t).length > 3
      · simp [h3]
      · simp [h3]
  · intro m n hn
    rcases avoidCIDR_foldl_mem net n _ [] hn with h | ⟨kv, hkv, hlen, hp⟩
    · simp at h
    · have hmem : kv ∈ m.data := (r.perm _).mem_iff.mp hkv
      refine ⟨kv.1, kv.2, ?_, hlen, hp⟩
      exact getRaw_of_mem m.data kv.1 kv.2 m.nodup hmem

/-- Witness of C5: three, then four addresses of `10.1.0.0/16`. -/
theorem avoid_threshold_witness :
    ¬ (⟨[10, 1, 0, 0], [255, 255, 0, 0]⟩ : IPNet) ∈ GetAvoidCIDR ipv4Net RangeOrder.listed
        (addAvoids ipv4Net [recordIP "10.1.2.3", recordIP "10.1.2.4", recordIP "10.1.9.9"]
          GoMap.empty) ∧
    (⟨[10, 1, 0, 0], [255, 255, 0, 0]⟩ : IPNet) ∈ GetAvoidCIDR ipv4Net RangeOrder.listed
        (addAvoids ipv4Net
          [recordIP "10.1.2.3", recordIP "10.1.2.4", recordIP "10.1.9.9", recordIP "10.1.0.1"]
          GoMap.empty) :=
  ⟨fun h => absurd ((avoid_threshold ipv4Net RangeOrder.listed
      [recordIP "10.1.2.3", recordIP "10.1.2.4", recordIP "10.1.9.9"]
      ⟨[10, 1, 0, 0], [255, 255, 0, 0]⟩ (by decide) (by decide) (by decide) (by decide)
      (by decide)).1.mp h) (by decide),
   (avoid_threshold ipv4Net RangeOrder.listed
      [recordIP "10.1.2.3", recordIP "10.1.2.4", recordIP "10.1.9.9", recordIP "10.1.0.1"]
      ⟨[10, 1, 0, 0], [255, 255, 0, 0]⟩ (by decide) (by decide) (by decide) (by decide)
      (by decide)).1.mpr (by decide)⟩

/-! ## The expiry sweeps -/

theorem GoMap.get_delete {V : Type} (m : GoMap V) (k k' : String) :
    (m.delete k).get k' = if k' = k then none else m.get k' :=
  getRaw_deleteRaw m.data k k'

theorem GoMap.get_set {V : Type} (m : GoMap V) (k : String) (v : V) (k' : String) :
    (m.set k v).get k' = if k' = k then some v else m.get k' :=
  getRaw_setRaw m.data k v k'

theorem GoMap.get_of_mem {V : Type} (m : GoMap V) (kv : String × V) (h : kv ∈ m.data) :
    m.get kv.1 = some kv.2 :=
  getRaw_of_mem m.data kv.1 kv.2 m.nodup h

theorem GoMap.mem_of_get {V : Type} (m : GoMap V) (k : String) (v : V) (h : m.get k = some v) :
    (k, v) ∈ m.data :=
  mem_of_getRaw m.data k v h

theorem setRaw_of_getRaw {V : Type} (l : List (String × V)) (k : String) (v : V)
    (h : getRaw l k = some v) : setRaw l k v = l := by
  induction l with
  | nil => simp [getRaw] at h
  | cons a t ih =>
    obtain ⟨ka, va⟩ := a
    by_cases hk : ka = k
    · simp only [getRaw, hk, if_true, Option.some.injEq] at h
      simp [setRaw, hk, h]
    · simp only [getRaw, hk, if_false] at h
      simp [setRaw, hk, ih h]

theorem GoMap.set_of_get {V : Type} (m : GoMap V) (k : String) (v : V) (h : m.get k = some v) :
    m.set k v = m :=
  GoMap.ext_data (setRaw_of_getRaw m.data k v h)

theorem GoMap.get_eq_none_of_len {V : Type} (m : GoMap V) (h : m.len = 0) (k : String) :
    m.get k = none := by
  have : m.data = [] := List.length_eq_zero.mp h
  simp [GoMap.get, this, getRaw]

theorem deleteExpired_get {V : Type} (expiresAt : V → Int) (now : Int)
    (l : List (String × V)) (st : GoMap V) (k : String) :
    (deleteExpired expiresAt now l st).get k =
      if ∃ kv ∈ l, kv.1 = k ∧ expiresAt kv.2 < now then none else st.get k := by
  induction l generalizing st with
  | nil => simp [deleteExpired]
  | cons a t ih =>
    have hstep : deleteExpired expiresAt now (a :: t) st =
        deleteExpired expiresAt now t (if now > expiresAt a.2 then st.delete a.1 else st) := rfl
    rw [hstep, ih]
    by_cases ht : ∃ kv ∈ t, kv.1 = k ∧ expiresAt kv.2 < now
    · have : ∃ kv ∈ a :: t, kv.1 = k ∧ expiresAt kv.2 < now := by
        obtain ⟨kv, h1, h2⟩ := ht
        exact ⟨kv, List.mem_cons_of_mem _ h1, h2⟩
      simp [ht, this]
    · rw [if_neg ht]
      by_cases ha : a.1 = k ∧ expiresAt a.2 < now
      · have : ∃ kv ∈ a :: t, kv.1 = k ∧ expiresAt kv.2 < now :=
          ⟨a, List.mem_cons_self _ _, ha⟩
        rw [if_pos this]
        have h2 : now > expiresAt a.2 := ha.2
        rw [if_pos h2, GoMap.get_delete, if_pos ha.1.symm]
      · have : ¬ ∃ kv ∈ a :: t, kv.1 = k ∧ expiresAt kv.2 < now := by
          rintro ⟨kv, h1, h2⟩
          rcases List.mem_cons.mp h1 with h1 | h1
          · exact ha (h1 ▸ h2)
          · exact ht ⟨kv, h1, h2⟩
        rw [if_neg this]
        by_cases h2 : now > expiresAt a.2
        · have hk : ¬ k = a.1 := fun e => ha ⟨e.symm, h2⟩
          rw [if_pos h2, GoMap.get_delete, if_neg hk]
        · rw [if_neg h2]

theorem deleteExpired_sweep_get {V : Type} (expiresAt : V → Int) (now : Int) (r : RangeOrder)
    (m : GoMap V) (k : String) :
    (deleteExpired expiresAt now (r.order m.data) m).get k =
      (m.get k).bind (keepUnexpired expiresAt now) := by
  rw [deleteExpired_get]
  cases hg : m.get k with
  | none =>
    simp
  | some v =>
    have hmem : (k, v) ∈ m.data := m.mem_of_get k v hg
    by_cases hv : expiresAt v < now
    · have : ∃ kv ∈ r.order m.data, kv.1 = k ∧ expiresAt kv.2 < now :=
        ⟨(k, v), (r.perm _).mem_iff.mpr hmem, rfl, hv⟩
      simp [this, keepUnexpired, hv]
    · have : ¬ ∃ kv ∈ r.order m.data, kv.1 = k ∧ expiresAt kv.2 < now := by
        rintro ⟨kv, h1, h2, h3⟩
        have h4 := m.get_of_mem kv ((r.perm _).mem_iff.mp h1)
        rw [h2, hg] at h4
        have : v = kv.2 := Option.some.inj h4
        exact hv (this ▸ h3)
      simp [this, keepUnexpired, hv]

theorem deleteExpired_fixed {V : Type} (expiresAt : V → Int) (now : Int)
    (l : List (String × V)) (st : GoMap V) (h : ∀ kv ∈ l, ¬ expiresAt kv.2 < now) :
    deleteExpired expiresAt now l st = st := by
  induction l generalizing st with
  | nil => rfl
  | cons a t ih =>
    have ha : ¬ now > expiresAt a.2 := h a (List.mem_cons_self _ _)
    have hstep : deleteExpired expiresAt now (a :: t) st =
        deleteExpired expiresAt now t (if now > expiresAt a.2 then st.delete a.1 else st) := rfl
    rw [hstep, if_neg ha]
    exact ih st (fun kv hkv => h kv (List.mem_cons_of_mem _ hkv))

theorem deleteExpired_sweep_clean {V : Type} (expiresAt : V → Int) (now : Int) (r : RangeOrder)
    (m : GoMap V) :
    ∀ kv ∈ (deleteExpired expiresAt now (r.order m.data) m).data, ¬ expiresAt kv.2 < now := by
  intro kv hkv hexp
  have h1 := GoMap.get_of_mem _ kv hkv
  rw [deleteExpired_sweep_get] at h1
  cases hg : m.get kv.1 with
  | none => simp [hg] at h1
  | some v =>
    simp only [hg, Option.some_bind, keepUnexpired] at h1
    split at h1
    · exact absurd h1 (by simp)
    · rename_i hv
      have : v = kv.2 := Option.some.inj h1
      exact hv (this ▸ hexp)

theorem clearAvoidStep_get (r : RangeOrder) (now : Int) (st : GoMap (GoMap AvoidNode))
    (kv : String × GoMap AvoidNode) (k : String) :
    (clearAvoidStep r now st kv).get k =
      if k = kv.1 then sweptGroup r now kv.2 else st.get k := by
  unfold clearAvoidStep sweptGroup
  by_cases h : (clearAvoidGroup r now kv.2).len = 0
  · simp only [h, if_true]
    rw [GoMap.get_delete]
  · simp only [h, if_false]
    rw [GoMap.get_set]

theorem clearAvoid_foldl_get_other (r : RangeOrder) (now : Int)
    (l : List (String × GoMap AvoidNode)) (st : GoMap (GoMap AvoidNode)) (k : String)
    (h : k ∉ keysOf l) : (l.foldl (clearAvoidStep r now) st).get k = st.get k := by
  induction l generalizing st with
  | nil => rfl
  | cons a t ih =>
    simp only [keysOf, List.map_cons, List.mem_cons, not_or] at h
    simp only [List.foldl_cons]
    rw [ih _ h.2, clearAvoidStep_get, if_neg h.1]

theorem clearAvoid_foldl_get_mem (r : RangeOrder) (now : Int)
    (l : List (String × GoMap AvoidNode)) (st : GoMap (GoMap AvoidNode)) (k : String)
    (v : GoMap AvoidNode) (hn : (keysOf l).Nodup) (h : (k, v) ∈ l) :
    (l.foldl (clearAvoidStep r now) st).get k = sweptGroup r now v := by
  induction l generalizing st with
  | nil => simp at h
  | cons a t ih =>
    simp only [keysOf, List.map_cons, List.nodup_cons] at hn
    simp only [List.foldl_cons]
    rcases List.mem_cons.mp h with h | h
    · subst h
      rw [clearAvoid_foldl_get_other r now t _ _ hn.1, clearAvoidStep_get, if_pos rfl]
    · exact ih _ hn.2 h

theorem ClearAvoidExpired_get (r : RangeOrder) (now : Int) (m : GoMap (GoMap AvoidNode))
    (k : String) : (ClearAvoidExpired r now m).get k = (m.get k).bind (sweptGroup r now) := by
  unfold ClearAvoidExpired
  have hperm := r.perm m.data
  cases hg : m.get k with
  | none =>
    have hk : k ∉ keysOf (r.order m.data) := by
      intro hmem
      have : k ∈ keysOf m.data := (List.Perm.map Prod.fst hperm).mem_iff.mp hmem
      exact (getRaw_eq_none_iff m.data k).mp hg this
    rw [clearAvoid_foldl_get_other r now _ _ _ hk, hg]
    rfl
  | some v =>
    have hmem : (k, v) ∈ r.order m.data := hperm.mem_iff.mpr (m.mem_of_get k v hg)
    have hn : (keysOf (r.order m.data)).Nodup :=
      (List.Perm.map Prod.fst hperm).nodup_iff.mpr m.nodup
    rw [clearAvoid_foldl_get_mem r now _ _ k v hn hmem]
    rfl

theorem clearAvoid_foldl_fixed (r : RangeOrder) (now : Int)
    (l : List (String × GoMap AvoidNode)) (st : GoMap (GoMap AvoidNode))
    (h : ∀ kv ∈ l, st.get kv.1 = some kv.2 ∧ kv.2.len ≠ 0 ∧
      ∀ e ∈ kv.2.data, ¬ e.2.ExpiresAt < now) :
    l.foldl (clearAvoidStep r now) st = st := by
  induction l with
  | nil => rfl
  | cons a t ih =>
    obtain ⟨h1, h2, h3⟩ := h a (List.mem_cons_self _ _)
    have hg : clearAvoidGroup r now a.2 = a.2 :=
      deleteExpired_fixed AvoidNode.ExpiresAt now _ _
        (fun e he => h3 e ((r.perm _).mem_iff.mp he))
    have hstep : clearAvoidStep r now st a = st := by
      simp only [clearAvoidStep, hg, h2, if_false]
      exact st.set_of_get a.1 a.2 h1
    simp only [List.foldl_cons, hstep]
    exact ih (fun kv hkv => h kv (List.mem_cons_of_mem _ hkv))

/-- C6: with the clock at `now`, the sweep of the favorite store keeps, under
every key, exactly the record that does not expire before `now`; the sweep of
the avoid store does the same under every subnet key and address, and leaves
no empty group; a second sweep at the same clock changes neither store. -/
theorem expiry_sweep (r r' : RangeOrder) (now : Int) (s : Storage)
    (m : GoMap (GoMap AvoidNode)) :
    (∀ k, (ClearFavoriteExpired r now s).get k =
      (s.get k).bind (keepUnexpired FavoriteNode.ExpiresAt now)) ∧
    ClearFavoriteExpired r' now (ClearFavoriteExpired r now s) = ClearFavoriteExpired r now s ∧
    (∀ k1 k2, ((ClearAvoidExpired r now m).get k1).bind (fun g => g.get k2) =
      ((m.get k1).bind (fun g => g.get k2)).bind (keepUnexpired AvoidNode.ExpiresAt now)) ∧
    (∀ k1 g, (ClearAvoidExpired r now m).get k1 = some g → g.len ≠ 0) ∧
    ClearAvoidExpired r' now (ClearAvoidExpired r now m) = ClearAvoidExpired r now m := by
  refine ⟨?_, ?_, ?_, ?_, ?_⟩
  · intro k
    exact deleteExpired_sweep_get FavoriteNode.ExpiresAt now r s k
  · apply deleteExpired_fixed
    intro kv hkv
    exact deleteExpired_sweep_clean FavoriteNode.ExpiresAt now r s kv
      ((r'.perm _).mem_iff.mp hkv)
  · intro k1 k2
    rw [ClearAvoidExpired_get]
    cases hg : m.get k1 with
    | none => rfl
    | some v =>
      simp only [Option.some_bind, sweptGroup]
      have hinner := deleteExpired_sweep_get AvoidNode.ExpiresAt now r v k2
      by_cases h0 : (clearAvoidGroup r now v).len = 0
      · simp only [h0, if_true, Option.none_bind]
        rw [← hinner]
        exact (GoMap.get_eq_none_of_len _ h0 k2).symm
      · simp only [h0, if_false, Option.some_bind]
        exact hinner
  · intro k1 g hg
    rw [ClearAvoidExpired_get] at hg
    cases hm : m.get k1 with
    | none => simp [hm] at hg
    | some v =>
      simp only [hm, Option.some_bind, sweptGroup] at hg
      split at hg
      · exact absurd hg (by simp)
      · rename_i h0
        rw [← Option.some.inj hg]
        exact h0
  · apply clearAvoid_foldl_fixed
    intro kv hkv
    have hmem : kv ∈ (ClearAvoidExpired r now m).data := (r'.perm _).mem_iff.mp hkv
    have hget := GoMap.get_of_mem _ kv hmem
    refine ⟨hget, ?_⟩
    rw [ClearAvoidExpired_get] at hget
    cases hm : m.get kv.1 with
    | none => simp [hm] at hget
    | some v =>
      simp only [hm, Option.some_bind, sweptGroup] at hget
      split at hget
      · exact absurd hget (by simp)
      · rename_i h0
        have hkv2 : clearAvoidGroup r now v = kv.2 := Option.some.inj hget
        rw [← hkv2]
        exact ⟨h0, deleteExpired_sweep_clean AvoidNode.ExpiresAt now r v⟩

/-- Witness of C6: a sweep at clock 200 deletes the group whose only record
expired at 100, and a second sweep changes nothing. -/
theorem expiry_sweep_witness :
    (ClearAvoidExpired RangeOrder.backwards 200 sampleAvoidStore).get "10.2.0.0/16" = none ∧
    ClearAvoidExpired RangeOrder.listed 200
        (ClearAvoidExpired RangeOrder.backwards 200 sampleAvoidStore) =
      ClearAvoidExpired RangeOrder.backwards 200 sampleAvoidStore :=
  ⟨by decide,
   (expiry_sweep RangeOrder.backwards RangeOrder.listed 200 tenPlainStore
      sampleAvoidStore).2.2.2.2⟩

/-! ## The UDP connection id -/

/-- C7: for a port in `[0, 65535]` the connection id is the two bytes
`[port mod 256, port div 256]`, and reading them back as `byte0 + 256 * byte1`
gives the port; for any port the connection id is that of `port mod 65536`. -/
theorem connId_roundtrip :
    (∀ port : Int, 0 ≤ port → port ≤ 65535 →
      GetConnIdData port = [(port % 256).toNat, (port / 256).toNat] ∧
      (decodeConnId (GetConnIdData port) : Int) = port) ∧
    (∀ port : Int, GetConnIdData port = GetConnIdData (port % 65536)) := by
  have hmem : ∀ port : Int, GetConnIdData port =
      [((port % 2 ^ 64) % 256).toNat, (((port % 2 ^ 64) / 256) % 256).toNat] := by
    intro port
    simp [GetConnIdData, intMemory, List.range, List.range.loop]
  constructor
  · intro port h0 h1
    rw [hmem]
    have e0 : (port % 2 ^ 64) % 256 = port % 256 := by omega
    have e1 : ((port % 2 ^ 64) / 256) % 256 = port / 256 := by omega
    rw [e0, e1]
    refine ⟨rfl, ?_⟩
    simp only [decodeConnId, List.getD_cons_zero, List.getD_cons_succ]
    omega
  · intro port
    rw [hmem, hmem]
    have e0 : ((port % 65536) % 2 ^ 64) % 256 = (port % 2 ^ 64) % 256 := by omega
    have e1 : (((port % 65536) % 2 ^ 64) / 256) % 256 = ((port % 2 ^ 64) / 256) % 256 := by omega
    rw [e0, e1]

/-- Witness of C7: port 8080. -/
theorem connId_roundtrip_witness :
    GetConnIdData 8080 = [((8080 : Int) % 256).toNat, ((8080 : Int) / 256).toNat] ∧
    (decodeConnId (GetConnIdData 8080) : Int) = 8080 :=
  connId_roundtrip.1 8080 (by decide) (by decide)

/-! ## The payment meter -/

theorem tick_bytesPaid (receiver : String) (price : Int) (o : TickOutcome) (m : Meter) :
    (tick receiver price o m).1.bytesPaid =
      if settles receiver o m = true then m.bytesIn else m.bytesPaid := by
  unfold tick settles
  by_cases h : m.bytesIn = m.bytesPaid
  · simp [h]
  · cases hnp : o.newNanoPay <;> cases hi : o.increment <;> cases hs : o.session <;>
      cases hst : o.stream <;> cases hw : o.writeErr <;>
      by_cases hn : o.writeN = o.txLen <;> by_cases hr : m.np = some receiver <;>
      by_cases hnone : m.np = none <;> simp_all

theorem tick_bytesIn (receiver : String) (price : Int) (o : TickOutcome) (m : Meter) :
    (tick receiver price o m).1.bytesIn = m.bytesIn := by
  unfold tick
  by_cases h : m.bytesIn = m.bytesPaid
  · simp [h]
  · simp only [h, if_false]
    split_ifs <;> rfl

theorem meter_foldl_le (events : List MeterEvent) :
    ∀ m : Meter, m.bytesPaid ≤ m.bytesIn → m.bytesIn + totalTraffic events < 2 ^ 64 →
      (events.foldl meterStep m).bytesPaid ≤ (events.foldl meterStep m).bytesIn := by
  induction events with
  | nil => intro m h _; exact h
  | cons e t ih =>
    intro m h hsum
    simp only [List.foldl_cons]
    cases e with
    | traffic d =>
      simp only [totalTraffic] at hsum
      have hlt : m.bytesIn + d < 2 ^ 64 := by omega
      apply ih
      · simp only [meterStep, Nat.mod_eq_of_lt hlt]
        omega
      · simp only [meterStep, Nat.mod_eq_of_lt hlt]
        omega
    | tick receiver price o =>
      simp only [totalTraffic] at hsum
      apply ih
      · simp only [meterStep, tick_bytesPaid, tick_bytesIn]
        split_ifs
        · exact le_refl _
        · exact h
      · simp only [meterStep, tick_bytesIn]
        exact hsum

/-- C8: a pass of the meter in which the counters differ, a payment channel
is at hand or created, and every action succeeds with a complete error-free
write sets `bytesPaid` to the `bytesIn` read at its start, advancing it by
`bytesIn - bytesPaid`; any other pass leaves `bytesPaid` as it was; a pass
with `bytesIn = bytesPaid` changes nothing and hands no amount to the payment
channel; and as long as `bytesIn` does not wrap, `bytesPaid ≤ bytesIn` holds
after every run of traffic and passes. -/
theorem meter_settlement (events : List MeterEvent) (hgrow : totalTraffic events < 2 ^ 64) :
    (∀ receiver price o m, settles receiver o m = true →
      (tick receiver price o m).1.bytesPaid = m.bytesIn) ∧
    (∀ receiver price o m, settles receiver o m = true → m.bytesPaid ≤ m.bytesIn →
      (tick receiver price o m).1.bytesPaid = m.bytesPaid + (m.bytesIn - m.bytesPaid)) ∧
    (∀ receiver price o m, settles receiver o m = false →
      (tick receiver price o m).1.bytesPaid = m.bytesPaid) ∧
    (∀ receiver price o m, m.bytesIn = m.bytesPaid → tick receiver price o m = (m, none)) ∧
    (meterRun events).bytesPaid ≤ (meterRun events).bytesIn := by
  refine ⟨?_, ?_, ?_, ?_, ?_⟩
  · intro receiver price o m hs
    rw [tick_bytesPaid, if_pos hs]
  · intro receiver price o m hs hle
    rw [tick_bytesPaid, if_pos hs]
    omega
  · intro receiver price o m hs
    rw [tick_bytesPaid, hs]
    simp
  · intro receiver price o m h
    simp [tick, h]
  · exact meter_foldl_le events ⟨0, 0, none⟩ (le_refl _) (by simpa using hgrow)

/-- Witness of C8: a short write, then a complete one, with traffic between. -/
theorem meter_settlement_witness :
    (meterRun [MeterEvent.traffic 2097152,
      MeterEvent.tick "receiver" 100000000 ⟨true, true, 120, true, true, 64, false⟩,
      MeterEvent.traffic 1000,
      MeterEvent.tick "receiver" 100000000 ⟨true, true, 120, true, true, 120, false⟩,
      MeterEvent.traffic 7]).bytesPaid ≤
    (meterRun [MeterEvent.traffic 2097152,
      MeterEvent.tick "receiver" 100000000 ⟨true, true, 120, true, true, 64, false⟩,
      MeterEvent.traffic 1000,
      MeterEvent.tick "receiver" 100000000 ⟨true, true, 120, true, true, 120, false⟩,
      MeterEvent.traffic 7]).bytesIn :=
  (meter_settlement _ (by decide)).2.2.2.2

/-! ## The owed amount -/

theorem toInt64_of_fits (x : Int) (h0 : -2 ^ 63 ≤ x) (h1 : x < 2 ^ 63) : toInt64 x = x := by
  unfold toInt64
  omega

theorem toInt64_mul_toInt64 (p d : Int) : toInt64 (p * toInt64 d) = toInt64 (p * d) := by
  unfold toInt64
  have hd : (d + 2 ^ 63) % 2 ^ 64 - 2 ^ 63 = d - (d + 2 ^ 63) / 2 ^ 64 * 2 ^ 64 := by
    have := Int.emod_add_ediv (d + 2 ^ 63) (2 ^ 64)
    linarith
  rw [hd]
  have : p * (d - (d + 2 ^ 63) / 2 ^ 64 * 2 ^ 64) + 2 ^ 63 =
      (p * d + 2 ^ 63) + (-(p * ((d + 2 ^ 63) / 2 ^ 64))) * 2 ^ 64 := by ring
  rw [this, Int.add_mul_emod_self]

/-- C10: for a price `0 ≤ P < 2^63` and counters `bytesPaid < bytesIn < 2^64`,
the amount handed to the payment channel is the exact product
`P * (bytesIn - bytesPaid)` wrapped to a signed 64-bit integer and then divided
by `1048576` with truncation toward zero; when the difference and the product
are below `2^63` it is the exact product divided by `1048576`, truncated. -/
theorem owed_delta (price : Int) (bytesIn bytesPaid : Nat) (hP : 0 ≤ price)
    (hin : bytesIn < 2 ^ 64) (hlt : bytesPaid < bytesIn) :
    owedDelta price bytesIn bytesPaid =
      Int.tdiv (toInt64 (price * ((bytesIn : Int) - (bytesPaid : Int)))) 1048576 ∧
    (∀ receiver o np amount,
      (tick receiver price o ⟨bytesIn, bytesPaid, np⟩).2 = some amount →
        amount = owedDelta price bytesIn bytesPaid) ∧
    (∀ receiver o np, o.newNanoPay = true →
      (tick receiver price o ⟨bytesIn, bytesPaid, np⟩).2 =
        some (owedDelta price bytesIn bytesPaid)) ∧
    ((bytesIn : Int) - (bytesPaid : Int) < 2 ^ 63 →
      price * ((bytesIn : Int) - (bytesPaid : Int)) < 2 ^ 63 →
      owedDelta price bytesIn bytesPaid =
        Int.tdiv (price * ((bytesIn : Int) - (bytesPaid : Int))) 1048576 ∧
      owedDelta price bytesIn bytesPaid =
        price * ((bytesIn : Int) - (bytesPaid : Int)) / 1048576) := by
  have hdiff : ((bytesIn : Int) - (bytesPaid : Int)) % 2 ^ 64 =
      (bytesIn : Int) - (bytesPaid : Int) := by
    omega
  have hgen : owedDelta price bytesIn bytesPaid =
      Int.tdiv (toInt64 (price * ((bytesIn : Int) - (bytesPaid : Int)))) 1048576 := by
    unfold owedDelta
    rw [hdiff, toInt64_mul_toInt64]
  have hne : ¬ bytesIn = bytesPaid := by omega
  refine ⟨hgen, ?_, ?_, ?_⟩
  · intro receiver o np amount h
    simp only [tick, hne, if_false] at h
    split_ifs at h <;> simp_all
  · intro receiver o np hnew
    simp only [tick, hne, if_false, hnew]
    split_ifs <;> simp_all
  · intro _ hprod
    have hnonneg : 0 ≤ price * ((bytesIn : Int) - (bytesPaid : Int)) :=
      Int.mul_nonneg hP (by omega)
    have hfit : toInt64 (price * ((bytesIn : Int) - (bytesPaid : Int))) =
        price * ((bytesIn : Int) - (bytesPaid : Int)) :=
      toInt64_of_fits _ (by omega) hprod
    rw [hgen, hfit]
    refine ⟨rfl, ?_⟩
    exact Int.tdiv_eq_ediv hnonneg (by decide)

/-- Witness of C10: two MiB at price 100000000, and a product that wraps to 0. -/
theorem owed_delta_witness :
    owedDelta 100000000 2097152 0 = 200000000 ∧
    owedDelta (2 ^ 62) 2097152 0 = 0 := by
  have h1 := owed_delta 100000000 2097152 0 (by decide) (by decide) (by decide)
  have h2 := owed_delta (2 ^ 62) 2097152 0 (by decide) (by decide) (by decide)
  constructor
  · rw [(h1.2.2.2 (by decide) (by decide)).2]
    decide
  · rw [h2.1]
    decide

/-! ## Opening a stream -/

theorem getSession_first (reverse : Bool) (a : Attempt) :
    getSession reverse false a =
      if a.sessionAlive = true ∨ a.connOk = true then SessionResult.session
      else SessionResult.error := by
  unfold getSession
  cases reverse <;> cases hs : a.sessionAlive <;> cases hc : a.connOk <;> simp

theorem getSession_forced (a : Attempt) :
    getSession false true a =
      if a.connOk = true then SessionResult.session else SessionResult.error := by
  unfold getSession
  cases hc : a.connOk <;> simp

theorem getSession_reverse_forced (a : Attempt) :
    getSession true true a =
      if a.closeTaken = true then SessionResult.error else SessionResult.blocked := by
  unfold getSession
  cases hc : a.closeTaken <;> simp

theorem openStreamFrom_failing (mid : List Attempt) :
    ∀ (opens : List Bool) (cont : List Attempt),
      (∀ x ∈ mid, x.connOk = true ∧ x.openOk = false) →
      openStreamFrom false true (mid ++ cont) opens =
        openStreamFrom false true cont (opens ++ List.replicate mid.length true) := by
  induction mid with
  | nil => intro opens cont _; simp
  | cons b t ih =>
    intro opens cont h
    obtain ⟨h1, h2⟩ := h b (List.mem_cons_self _ _)
    have ht : ∀ x ∈ t, x.connOk = true ∧ x.openOk = false :=
      fun x hx => h x (List.mem_cons_of_mem _ hx)
    have hstep : openStreamFrom false true (b :: t ++ cont) opens =
        openStreamFrom false true (t ++ cont) (opens ++ [true]) := by
      simp [openStreamFrom, getSession_forced, h1, h2]
    rw [hstep, ih (opens ++ [true]) cont ht]
    simp [List.replicate_succ]

theorem openStream_first_failed (reverse : Bool) (p : Attempt) (rest : List Attempt)
    (hs : p.sessionAlive = true ∨ p.connOk = true) (ho : p.openOk = false) :
    openStream reverse false (p :: rest) = openStreamFrom reverse true rest [false] := by
  simp [openStream, openStreamFrom, getSession_first, hs, ho]

/-- C9 (as stated, refuted): when the first two stream-open attempts fail and
the forced reconnects succeed, `openStream(port, false)` makes a third
stream-open attempt and returns its stream. -/
theorem openStream_third_attempt :
    openStream false false
      [⟨true, true, false, false⟩, ⟨false, true, false, false⟩, ⟨false, true, true, false⟩] =
      OpenResult.stream [false, true, true] := by
  decide

/-- C9 (amended): what `openStream(port, false)` does on every run of outcomes.
The first pass, with `force = false`, returns the error of `getSession` when
there is no live session and the connection fails, and returns the stream when
a session is had and the stream opens.  When the first stream-open fails, every
further pass is made with `force = true`.  Outside reverse mode each further
pass whose connection succeeds and whose stream-open fails is followed by
another pass (`mid`, of any length), the stream is returned as soon as one
opens, and an error is returned only when the connection fails.  In reverse
mode the second pass goes into `te.close()`: it returns an error if the send on
`closeChan` is received and never returns otherwise, so at most one
stream-open attempt is made there. -/
theorem openStream_retries (p : Attempt) (mid : List Attempt) (a : Attempt)
    (rest : List Attempt) (hmid : ∀ x ∈ mid, x.connOk = true ∧ x.openOk = false) :
    (∀ reverse, openStream reverse false [] = OpenResult.retrying []) ∧
    (∀ reverse, p.sessionAlive = false → p.connOk = false →
      openStream reverse false (p :: rest) = OpenResult.error []) ∧
    (∀ reverse, p.sessionAlive = true ∨ p.connOk = true → p.openOk = true →
      openStream reverse false (p :: rest) = OpenResult.stream [false]) ∧
    (p.sessionAlive = true ∨ p.connOk = true → p.openOk = false →
      openStream false false (p :: mid) =
        OpenResult.retrying (false :: List.replicate mid.length true) ∧
      (a.connOk = true → a.openOk = true →
        openStream false false (p :: mid ++ a :: rest) =
          OpenResult.stream (false :: List.replicate (mid.length + 1) true)) ∧
      (a.connOk = false →
        openStream false false (p :: mid ++ a :: rest) =
          OpenResult.error (false :: List.replicate mid.length true)) ∧
      openStream true false [p] = OpenResult.retrying [false] ∧
      (a.closeTaken = true →
        openStream true false (p :: a :: rest) = OpenResult.error [false]) ∧
      (a.closeTaken = false →
        openStream true false (p :: a :: rest) = OpenResult.blocked [false])) ∧
    (∀ outcomes, (openStream true false outcomes).opens.length ≤ 1) := by
  refine ⟨fun _ => rfl, ?_, ?_, ?_, ?_⟩
  · intro reverse h1 h2
    simp [openStream, openStreamFrom, getSession_first, h1, h2]
  · intro reverse hs ho
    simp [openStream, openStreamFrom, getSession_first, hs, ho]
  · intro hs ho
    have hfirst := fun reverse rest => openStream_first_failed reverse p rest hs ho
    have hrun := fun cont => openStreamFrom_failing mid [false] cont hmid
    refine ⟨?_, ?_, ?_, ?_, ?_, ?_⟩
    · have := hrun []
      rw [List.append_nil] at this
      rw [hfirst, this]
      simp [openStreamFrom]
    · intro h1 h2
      rw [List.cons_append, hfirst, hrun]
      simp only [openStreamFrom, getSession_forced, h1, h2, if_true]
      rw [List.replicate_succ']
      simp
    · intro h1
      rw [List.cons_append, hfirst, hrun]
      simp [openStreamFrom, getSession_forced, h1]
    · rw [hfirst]
      rfl
    · intro h1
      rw [hfirst]
      simp [openStreamFrom, getSession_reverse_forced, h1]
    · intro h1
      rw [hfirst]
      simp [openStreamFrom, getSession_reverse_forced, h1]
  · intro outcomes
    cases outcomes with
    | nil => simp [openStream, openStreamFrom, OpenResult.opens]
    | cons b t =>
      by_cases hs : b.sessionAlive = true ∨ b.connOk = true
      · by_cases ho : b.openOk = true
        · simp [openStream, openStreamFrom, getSession_first, hs, ho, OpenResult.opens]
        · have ho' : b.openOk = false := by simpa using ho
          rw [openStream_first_failed true b t hs ho']
          cases t with
          | nil => simp [openStreamFrom, OpenResult.opens]
          | cons c t' =>
            cases hc : c.closeTaken <;>
              simp [openStreamFrom, getSession_reverse_forced, hc, OpenResult.opens]
      · simp [openStream, openStreamFrom, getSession_first, hs, OpenResult.opens]

/-- Witness of C9 (amended): three failed stream-open attempts, then a failed
reconnect; and in reverse mode one failed stream-open attempt, then a
`te.close()` whose send nobody receives. -/
theorem openStream_retries_witness :
    openStream false false
      [⟨true, true, false, false⟩, ⟨false, true, false, false⟩, ⟨false, true, false, false⟩,
        ⟨false, false, false, false⟩] =
      OpenResult.error [false, true, true] ∧
    openStream true false [⟨true, true, false, false⟩, ⟨false, false, false, false⟩] =
      OpenResult.blocked [false] := by
  have h := (openStream_retries ⟨true, true, false, false⟩
    [⟨false, true, false, false⟩, ⟨false, true, false, false⟩]
    ⟨false, false, false, false⟩ [] (by decide)).2.2.2.1 (Or.inl rfl) rfl
  exact ⟨h.2.2.1 rfl, h.2.2.2.2.2 rfl⟩

/-! ## Recording an address to avoid -/

theorem avoidDefaults_MaskSize_clock (now now' : Int) (val : AvoidNode) :
    (avoidDefaults now' val).MaskSize = (avoidDefaults now val).MaskSize := by
  simp only [avoidDefaults]
  split_ifs <;> simp_all

theorem avoidDefaults_fields (now : Int) (val : AvoidNode) :
    (avoidDefaults now val).MaskSize = (if val.MaskSize = 0 then 16 else val.MaskSize) ∧
    (avoidDefaults now val).ExpiresAt =
      (if val.ExpiresAt = 0 then now + 7 * 24 * 3600 else val.ExpiresAt) ∧
    (avoidDefaults now val).IP = val.IP ∧ (avoidDefaults now val).Address = val.Address := by
  simp only [avoidDefaults, maskSize, avoidExpired]
  split_ifs <;> simp_all

/-- A key that does not parse leaves the store as it was. -/
theorem AddAvoidNode_unparsed (net : NetPkg) (now : Int) (key : String) (val : AvoidNode)
    (m : GoMap (GoMap AvoidNode))
    (h : net.ParseCIDR (cidrString key (avoidDefaults now val).MaskSize) = none) :
    AddAvoidNode net now key val m = m := by
  simp only [AddAvoidNode, h]

/-- When the subnet group is there already, the record goes into it under the
key, other groups stay, and the group grows only if the key is new to it. -/
theorem AddAvoidNode_existing_group (net : NetPkg) (now : Int) (key : String) (val : AvoidNode)
    (c : IPNet) (g : GoMap AvoidNode) (m : GoMap (GoMap AvoidNode))
    (hparse : net.ParseCIDR (cidrString key (avoidDefaults now val).MaskSize) = some c)
    (hold : m.get (net.String c) = some g) :
    (AddAvoidNode net now key val m).get (net.String c) =
        some (g.set key (avoidDefaults now val)) ∧
    (g.set key (avoidDefaults now val)).get key = some (avoidDefaults now val) ∧
    (∀ k, k ≠ net.String c → (AddAvoidNode net now key val m).get k = m.get k) ∧
    (g.get key ≠ none → (g.set key (avoidDefaults now val)).len = g.len) := by
  have hres : AddAvoidNode net now key val m =
      m.set (net.String c) (g.set key (avoidDefaults now val)) := by
    simp only [AddAvoidNode, hparse, hold]
  refine ⟨?_, ?_, ?_, ?_⟩
  · rw [hres, GoMap.get_set, if_pos rfl]
  · rw [GoMap.get_set, if_pos rfl]
  · intro k hk
    rw [hres, GoMap.get_set, if_neg hk]
  · intro hkey
    have hmem : key ∈ keysOf g.data := by
      by_contra hc
      exact hkey ((getRaw_eq_none_iff g.data key).mpr hc)
    exact length_setRaw_of_mem g.data key _ hmem

/-- C11 (the code misses the key): when the subnet of `key` has no group yet
and the record's `IP` field is not `key`, the new group holds the record under
`val.IP` and nothing under `key`; recording the same key again then finds the
group and adds the record under `key`, so the group grows from one record to
two. -/
theorem avoid_new_group_keyed_by_IP (net : NetPkg) (now now' : Int) (key : String)
    (val : AvoidNode) (c : IPNet) (m : GoMap (GoMap AvoidNode))
    (hparse : net.ParseCIDR (cidrString key (avoidDefaults now val).MaskSize) = some c)
    (hnew : m.get (net.String c) = none) (hip : val.IP ≠ key) :
    (AddAvoidNode net now key val m).get (net.String c) =
        some (GoMap.single val.IP (avoidDefaults now val)) ∧
    (GoMap.single val.IP (avoidDefaults now val)).get key = none ∧
    (GoMap.single val.IP (avoidDefaults now val)).len = 1 ∧
    (AddAvoidNode net now' key val (AddAvoidNode net now key val m)).get (net.String c) =
        some ((GoMap.single val.IP (avoidDefaults now val)).set key (avoidDefaults now' val)) ∧
    ((GoMap.single val.IP (avoidDefaults now val)).set key (avoidDefaults now' val)).len = 2 := by
  have hfirst : (AddAvoidNode net now key val m).get (net.String c) =
      some (GoMap.single val.IP (avoidDefaults now val)) := by
    have hres : AddAvoidNode net now key val m =
        m.set (net.String c) (GoMap.single (avoidDefaults now val).IP (avoidDefaults now val)) := by
      simp only [AddAvoidNode, hparse, hnew]
    rw [hres, GoMap.get_set, if_pos rfl, avoidDefaults_IP]
  have hparse' : net.ParseCIDR (cidrString key (avoidDefaults now' val).MaskSize) = some c := by
    rw [avoidDefaults_MaskSize_clock now now' val]
    exact hparse
  refine ⟨hfirst, ?_, rfl, ?_, ?_⟩
  · simp [GoMap.get, GoMap.single, getRaw, hip]
  · exact (AddAvoidNode_existing_group net now' key val c _ _ hparse' hfirst).1
  · simp [GoMap.len, GoMap.set, GoMap.single, setRaw, hip]

/-- Witness of C11: on the empty store, `10.1.2.3` recorded twice with a record
whose `IP` is `10.1.7.7`. -/
theorem avoid_new_group_keyed_by_IP_witness :
    ((AddAvoidNode ipv4Net 1700000000 "10.1.2.3" strayRecord GoMap.empty).get
        "10.1.0.0/16").bind (fun g => g.get "10.1.2.3") = none ∧
    ((AddAvoidNode ipv4Net 1700000000 "10.1.2.3" strayRecord GoMap.empty).get
        "10.1.0.0/16").map GoMap.len = some 1 ∧
    ((AddAvoidNode ipv4Net 1700000060 "10.1.2.3" strayRecord
        (AddAvoidNode ipv4Net 1700000000 "10.1.2.3" strayRecord GoMap.empty)).get
        "10.1.0.0/16").map GoMap.len = some 2 := by
  have h := avoid_new_group_keyed_by_IP ipv4Net 1700000000 1700000060 "10.1.2.3" strayRecord
    ⟨[10, 1, 0, 0], [255, 255, 0, 0]⟩ GoMap.empty (by decide) (by decide) (by decide)
  have hs : ipv4Net.String ⟨[10, 1, 0, 0], [255, 255, 0, 0]⟩ = "10.1.0.0/16" := by decide
  rw [hs] at h
  obtain ⟨h1, h2, h3, h4, h5⟩ := h
  refine ⟨?_, ?_, ?_⟩
  · rw [h1]; exact h2
  · rw [h1]; exact congrArg some h3
  · rw [h4]; exact congrArg some h5

end Tuna
